import Mathlib

/-!
# Verification of the sspngme PNG chunk core

A shallow embedding of `src/chunk_type.rs` and `src/chunk.rs`:
the 4-byte PNG chunk-type code with its ASCII case flags, the chunk
record (length, type, data, crc), CRC-32/ISO-HDLC checksumming,
serialization (`as_bytes`) and parsing (`TryFrom<&[u8]>`).

Bytes are modelled as `Nat` (with the `u8` bound `< 256` carried as a
hypothesis where a claim needs it); `u32` values are `Nat` with wrapping
written as `% 2^32` where the Rust code casts.
-/

set_option maxRecDepth 10000

namespace Sspngme

/-! ## Bytes and u32 big-endian framing -/

/-- Rust `u8::is_ascii`: the byte is at most 127. -/
def isAsciiByte (b : Nat) : Bool := b ≤ 127

/-- Rust `u8::is_ascii_uppercase`: `b'A' ..= b'Z'`. -/
def isAsciiUppercase (b : Nat) : Bool := 65 ≤ b && b ≤ 90

/-- Rust `u8::is_ascii_lowercase`: `b'a' ..= b'z'`. -/
def isAsciiLowercase (b : Nat) : Bool := 97 ≤ b && b ≤ 122

/-- Rust `char::is_ascii_digit` on a byte/code: `'0' ..= '9'`. -/
def isAsciiDigit (b : Nat) : Bool := 48 ≤ b && b ≤ 57

/-- Rust `u32::to_be_bytes`: the 4 big-endian bytes of a `u32` value. -/
def u32ToBeBytes (n : Nat) : List Nat :=
  [n / 2 ^ 24 % 256, n / 2 ^ 16 % 256, n / 2 ^ 8 % 256, n % 256]

/-- Rust `u32::from_be_bytes` on a 4-byte list (any other shape is
unreachable in the embedding, mapped to 0). -/
def u32FromBeBytes (l : List Nat) : Nat :=
  match l with
  | [b0, b1, b2, b3] => b0 * 2 ^ 24 + b1 * 2 ^ 16 + b2 * 2 ^ 8 + b3
  | _ => 0

/-! ## CRC-32/ISO-HDLC

`const CHECKSUM_ALG: Crc<u32> = Crc::<u32>::new(&CRC_32_ISO_HDLC)` from
`chunk.rs`.  The `CRC_32_ISO_HDLC` algorithm of the `crc` crate is the
standard reflected CRC-32 (zlib/PNG): polynomial `0x04C11DB7` reflected
to `0xEDB88320`, initial value `0xFFFFFFFF`, reflected input and output,
final xor `0xFFFFFFFF`.  We embed it bit-serially in its reflected
form. -/

/-- The reflected CRC-32 polynomial. -/
def CRC32_POLY : Nat := 0xEDB88320

/-- One bit step of the reflected CRC-32: shift right, conditionally xor
the reflected polynomial when the bit shifted out was set. -/
def crcBitStep (c : Nat) : Nat :=
  if c % 2 = 1 then c / 2 ^^^ CRC32_POLY else c / 2

/-- Absorb one input byte into the CRC state: xor it in, then run eight
bit steps. -/
def crcByteStep (c b : Nat) : Nat :=
  crcBitStep (crcBitStep (crcBitStep (crcBitStep
    (crcBitStep (crcBitStep (crcBitStep (crcBitStep (c ^^^ b))))))))

/-- `CHECKSUM_ALG.checksum(bytes)`: fold the bytes from the initial
state `0xFFFFFFFF` and xor the output with `0xFFFFFFFF`. -/
def checksum (bytes : List Nat) : Nat :=
  bytes.foldl crcByteStep 0xFFFFFFFF ^^^ 0xFFFFFFFF

/-! ## ChunkType (`chunk_type.rs`) -/

/-- The `[u8; 4]` array inside a `ChunkType`. -/
abbrev Bytes4 := Nat × Nat × Nat × Nat

/-- The four array entries in order. -/
def bytes4ToList (b : Bytes4) : List Nat := [b.1, b.2.1, b.2.2.1, b.2.2.2]

/-- `<[u8; 4]>::is_ascii`: every byte is ASCII. -/
def bytes4IsAscii (b : Bytes4) : Bool :=
  isAsciiByte b.1 && isAsciiByte b.2.1 && isAsciiByte b.2.2.1 && isAsciiByte b.2.2.2

/-- `struct ChunkType { chunk_type: [u8; 4] }`. -/
structure ChunkType where
  chunk_type : Bytes4
deriving DecidableEq, Repr

/-- `ChunkType::new`: wraps the array, no validation. -/
def ChunkType.new (b : Bytes4) : ChunkType := ⟨b⟩

/-- `ChunkType::bytes`: returns the stored array. -/
def ChunkType.bytes (ct : ChunkType) : Bytes4 := ct.chunk_type

/-- `ChunkType::is_critical`: byte 0 is ASCII uppercase. -/
def ChunkType.is_critical (ct : ChunkType) : Bool := isAsciiUppercase ct.bytes.1

/-- `ChunkType::is_public`: byte 1 is ASCII uppercase. -/
def ChunkType.is_public (ct : ChunkType) : Bool := isAsciiUppercase ct.bytes.2.1

/-- `ChunkType::is_reserved_bit_valid`: byte 2 is ASCII uppercase. -/
def ChunkType.is_reserved_bit_valid (ct : ChunkType) : Bool :=
  isAsciiUppercase ct.bytes.2.2.1

/-- `ChunkType::is_safe_to_copy`: byte 3 is ASCII lowercase. -/
def ChunkType.is_safe_to_copy (ct : ChunkType) : Bool :=
  isAsciiLowercase ct.bytes.2.2.2

/-- `ChunkType::is_valid`: all four bytes ASCII and the reserved bit valid. -/
def ChunkType.is_valid (ct : ChunkType) : Bool :=
  bytes4IsAscii ct.chunk_type && ct.is_reserved_bit_valid

/-- `enum ChunkTypeError`. -/
inductive ChunkTypeError where
  | invalidASCII
  | invalidLength
  | invalidChar
deriving DecidableEq, Repr

/-- `impl TryFrom<[u8; 4]> for ChunkType`: reject non-ASCII arrays,
otherwise wrap. -/
def ChunkType.try_from (value : Bytes4) : Except ChunkTypeError ChunkType :=
  if ¬ bytes4IsAscii value then .error .invalidASCII
  else .ok (ChunkType.new value)

/-- `impl FromStr for ChunkType` (`from_str`): a `&str` is a list of
characters; `s.is_ascii()` then `s.len() != 4` (byte length, equal to
the character count once the string is known ASCII) then a digit test on
`s.chars().nth(2)`, then the first four bytes of the string are read
into the array. -/
def ChunkType.from_str (s : List Char) : Except ChunkTypeError ChunkType :=
  if ¬ s.all (fun c => c.toNat ≤ 127) then .error .invalidASCII
  else if s.length ≠ 4 then .error .invalidLength
  else if isAsciiDigit (s.getD 2 'A').toNat then .error .invalidChar
  else .ok (ChunkType.new
    ((s.getD 0 'A').toNat, (s.getD 1 'A').toNat, (s.getD 2 'A').toNat,
      (s.getD 3 'A').toNat))

/-- A UTF-8 continuation byte: `0x80 ..= 0xBF`. -/
def isUtf8Cont (b : Nat) : Prop := 0x80 ≤ b ∧ b ≤ 0xBF

instance (b : Nat) : Decidable (isUtf8Cont b) := by
  unfold isUtf8Cont
  infer_instance

/-- Decode a byte list as UTF-8 (the validation performed by
`std::str::from_utf8` in `impl Display for ChunkType`); `none` models
the error the `unwrap` would turn into a panic. -/
def utf8Decode (l : List Nat) : Option (List Char) :=
  match l with
  | [] => some []
  | b :: rest =>
    if b < 0x80 then
      (utf8Decode rest).map (Char.ofNat b :: ·)
    else if 0xC2 ≤ b ∧ b ≤ 0xDF then
      if 1 ≤ rest.length ∧ isUtf8Cont (rest.getD 0 0) then
        (utf8Decode (rest.drop 1)).map
          (Char.ofNat ((b - 0xC0) * 64 + (rest.getD 0 0 - 0x80)) :: ·)
      else none
    else if 0xE0 ≤ b ∧ b ≤ 0xEF then
      if 2 ≤ rest.length ∧ isUtf8Cont (rest.getD 0 0) ∧ isUtf8Cont (rest.getD 1 0) ∧
          (b = 0xE0 → 0xA0 ≤ rest.getD 0 0) ∧ (b = 0xED → rest.getD 0 0 ≤ 0x9F) then
        (utf8Decode (rest.drop 2)).map
          (Char.ofNat ((b - 0xE0) * 4096 + (rest.getD 0 0 - 0x80) * 64 +
            (rest.getD 1 0 - 0x80)) :: ·)
      else none
    else if 0xF0 ≤ b ∧ b ≤ 0xF4 then
      if 3 ≤ rest.length ∧ isUtf8Cont (rest.getD 0 0) ∧ isUtf8Cont (rest.getD 1 0) ∧
          isUtf8Cont (rest.getD 2 0) ∧
          (b = 0xF0 → 0x90 ≤ rest.getD 0 0) ∧ (b = 0xF4 → rest.getD 0 0 ≤ 0x8F) then
        (utf8Decode (rest.drop 3)).map
          (Char.ofNat ((b - 0xF0) * 262144 + (rest.getD 0 0 - 0x80) * 4096 +
            (rest.getD 1 0 - 0x80) * 64 + (rest.getD 2 0 - 0x80)) :: ·)
      else none
    else none
termination_by l.length
decreasing_by all_goals simp_wf <;> omega

/-- `impl Display for ChunkType`: `from_utf8(&self.chunk_type)` then the
resulting string; `none` when the `unwrap` would panic. -/
def ChunkType.displayString (ct : ChunkType) : Option (List Char) :=
  utf8Decode (bytes4ToList ct.chunk_type)

/-! ## Chunk (`chunk.rs`) -/

/-- `struct Chunk { length: u32, chunk_type: ChunkType, data: Vec<u8>, crc: u32 }`. -/
structure Chunk where
  length : Nat
  chunk_type : ChunkType
  data : List Nat
  crc : Nat
deriving DecidableEq, Repr

/-- `Chunk::new`: `length = data.len() as u32` (a wrapping cast), the
checksum is computed over `chunk_type.bytes()` chained with `data`. -/
def Chunk.new (chunk_type : ChunkType) (data : List Nat) : Chunk :=
  let length := data.length % 2 ^ 32
  let datae := bytes4ToList chunk_type.bytes ++ data
  let crc := checksum datae
  { length := length, chunk_type := chunk_type, data := data, crc := crc }

/-- `Chunk::as_bytes`: big-endian length, type bytes, data, big-endian crc. -/
def Chunk.as_bytes (c : Chunk) : List Nat :=
  u32ToBeBytes c.length ++ bytes4ToList c.chunk_type.bytes ++ c.data ++
    u32ToBeBytes c.crc

/-- The errors `TryFrom<&[u8]> for Chunk` can produce: the
`io::ErrorKind::UnexpectedEof` failure of `Cursor::read_exact`, and
`ChunkError::InvalidCRC`. -/
inductive ChunkParseError where
  | unexpectedEof
  | invalidCRC
deriving DecidableEq, Repr

/-- `impl TryFrom<&[u8]> for Chunk`: a cursor reads the 4 length bytes,
the 4 type bytes, `length` data bytes and the 4 crc bytes, each
`read_exact` failing with `UnexpectedEof` when fewer bytes remain; then
the crc is recomputed over type ++ data and compared. -/
def Chunk.try_from (value : List Nat) : Except ChunkParseError Chunk :=
  if value.length < 4 then .error .unexpectedEof else
  let length := u32FromBeBytes (value.take 4)
  let rest1 := value.drop 4
  if rest1.length < 4 then .error .unexpectedEof else
  let ctB := rest1.take 4
  let chunk_type := ChunkType.new (ctB.getD 0 0, ctB.getD 1 0, ctB.getD 2 0, ctB.getD 3 0)
  let rest2 := rest1.drop 4
  if rest2.length < length then .error .unexpectedEof else
  let data := rest2.take length
  let rest3 := rest2.drop length
  if rest3.length < 4 then .error .unexpectedEof else
  let crc := u32FromBeBytes (rest3.take 4)
  let datae := bytes4ToList chunk_type.bytes ++ data
  if crc ≠ checksum datae then .error .invalidCRC
  else .ok { length := length, chunk_type := chunk_type, data := data, crc := crc }

/-! ## Spec-side views of a raw buffer

Projections of an input buffer used to state the error-handling claims:
the declared big-endian length, the stored crc field, and the checksum
recomputed over the type and data bytes. -/

/-- The big-endian `u32` declared by the first four bytes of a buffer. -/
def declaredLen (v : List Nat) : Nat := u32FromBeBytes (v.take 4)

/-- The big-endian `u32` stored in the crc field of a well-framed buffer. -/
def storedCrc (v : List Nat) : Nat :=
  u32FromBeBytes ((v.drop (8 + declaredLen v)).take 4)

/-- The CRC-32 checksum recomputed over the type bytes concatenated with
the data bytes of a buffer. -/
def computedCrc (v : List Nat) : Nat :=
  checksum ((v.drop 4).take 4 ++ (v.drop 8).take (declaredLen v))

/-! ## Framing lemmas -/

lemma u32ToBeBytes_length (n : Nat) : (u32ToBeBytes n).length = 4 := rfl

lemma u32_roundtrip (n : Nat) (h : n < 2 ^ 32) :
    u32FromBeBytes (u32ToBeBytes n) = n := by
  simp only [u32ToBeBytes, u32FromBeBytes]
  omega

lemma list_len4_cases (l : List Nat) (h : l.length = 4) :
    ∃ a b c d, l = [a, b, c, d] := by
  rcases l with _ | ⟨a, _ | ⟨b, _ | ⟨c, _ | ⟨d, _ | ⟨e, tl⟩⟩⟩⟩⟩
  · simp at h
  · simp at h
  · simp at h
  · simp at h
  · exact ⟨a, b, c, d, rfl⟩
  · simp at h

lemma u32FromBeBytes_take_of_lt (v : List Nat) (h : v.length < 4) :
    u32FromBeBytes (v.take 4) = 0 := by
  rcases v with _ | ⟨a, _ | ⟨b, _ | ⟨c, _ | ⟨d, tl⟩⟩⟩⟩
  · rfl
  · rfl
  · rfl
  · rfl
  · simp at h
    omega

lemma bytes4ToList_getD (l : List Nat) (h : l.length = 4) :
    bytes4ToList (l.getD 0 0, l.getD 1 0, l.getD 2 0, l.getD 3 0) = l := by
  obtain ⟨a, b, c, d, rfl⟩ := list_len4_cases l h
  rfl

/-! ## CRC state bounds -/

lemma crcBitStep_lt (c : Nat) (h : c < 2 ^ 32) : crcBitStep c < 2 ^ 32 := by
  unfold crcBitStep CRC32_POLY
  split
  · exact Nat.xor_lt_two_pow (by omega) (by norm_num)
  · omega

lemma crcByteStep_lt (c b : Nat) (hc : c < 2 ^ 32) (hb : b < 2 ^ 32) :
    crcByteStep c b < 2 ^ 32 := by
  unfold crcByteStep
  iterate 8 apply crcBitStep_lt
  exact Nat.xor_lt_two_pow hc hb

lemma foldl_crc_lt (l : List Nat) (c : Nat) (hc : c < 2 ^ 32)
    (hl : ∀ b ∈ l, b < 2 ^ 32) : l.foldl crcByteStep c < 2 ^ 32 := by
  induction l generalizing c with
  | nil => simpa using hc
  | cons b t ih =>
    simp only [List.foldl_cons]
    exact ih _ (crcByteStep_lt _ _ hc (hl b (by simp))) fun x hx => hl x (by simp [hx])

lemma checksum_lt (l : List Nat) (hl : ∀ b ∈ l, b < 2 ^ 32) :
    checksum l < 2 ^ 32 := by
  unfold checksum
  exact Nat.xor_lt_two_pow (foldl_crc_lt l _ (by norm_num) hl) (by norm_num)

/-! ## Claims about ChunkType flags and constructors -/

/-- C5: for every `ChunkType`, `is_critical` holds iff byte 0 is an ASCII
uppercase letter, `is_public` iff byte 1 is, `is_reserved_bit_valid` iff
byte 2 is, `is_safe_to_copy` iff byte 3 is an ASCII lowercase letter, and
`is_valid` iff all four bytes are ASCII and the reserved bit is valid. -/
theorem chunkType_flags_spec (ct : ChunkType) :
    (ct.is_critical = true ↔ 65 ≤ ct.bytes.1 ∧ ct.bytes.1 ≤ 90) ∧
    (ct.is_public = true ↔ 65 ≤ ct.bytes.2.1 ∧ ct.bytes.2.1 ≤ 90) ∧
    (ct.is_reserved_bit_valid = true ↔ 65 ≤ ct.bytes.2.2.1 ∧ ct.bytes.2.2.1 ≤ 90) ∧
    (ct.is_safe_to_copy = true ↔ 97 ≤ ct.bytes.2.2.2 ∧ ct.bytes.2.2.2 ≤ 122) ∧
    (ct.is_valid = true ↔
      (ct.bytes.1 ≤ 127 ∧ ct.bytes.2.1 ≤ 127 ∧ ct.bytes.2.2.1 ≤ 127 ∧
        ct.bytes.2.2.2 ≤ 127) ∧ ct.is_reserved_bit_valid = true) := by
  obtain ⟨⟨b0, b1, b2, b3⟩⟩ := ct
  simp only [ChunkType.is_critical, ChunkType.is_public, ChunkType.is_reserved_bit_valid,
    ChunkType.is_safe_to_copy, ChunkType.is_valid, ChunkType.bytes, bytes4IsAscii,
    isAsciiUppercase, isAsciiLowercase, isAsciiByte, Bool.and_eq_true, decide_eq_true_eq]
  tauto

/-- C5 witness: the flags evaluated at the concrete type `RuSt`. -/
theorem chunkType_flags_spec_witness :
    65 ≤ (82 : Nat) ∧ (82 : Nat) ≤ 90 :=
  (chunkType_flags_spec (ChunkType.new (82, 117, 83, 116))).1.mp (by decide)

/-- C8: `ChunkType::new` performs no validation and `bytes` returns the
stored array unchanged; `TryFrom<[u8; 4]>` fails with `InvalidASCII` iff
some byte is not ASCII and otherwise returns the same four bytes. -/
theorem chunkType_new_try_from_spec (b : Bytes4) :
    (ChunkType.new b).bytes = b ∧
    (ChunkType.try_from b = .error .invalidASCII ↔
      ¬ (b.1 ≤ 127 ∧ b.2.1 ≤ 127 ∧ b.2.2.1 ≤ 127 ∧ b.2.2.2 ≤ 127)) ∧
    ((b.1 ≤ 127 ∧ b.2.1 ≤ 127 ∧ b.2.2.1 ≤ 127 ∧ b.2.2.2 ≤ 127) →
      ChunkType.try_from b = .ok (ChunkType.new b)) := by
  obtain ⟨b0, b1, b2, b3⟩ := b
  refine ⟨rfl, ?_, ?_⟩
  · rw [ChunkType.try_from]
    split_ifs with h
    · simp only [bytes4IsAscii, isAsciiByte, Bool.and_eq_true, decide_eq_true_eq] at h
      simp only [Except.error.injEq, true_iff]
      tauto
    · simp only [bytes4IsAscii, isAsciiByte, Bool.and_eq_true, decide_eq_true_eq,
        not_not] at h
      simp only [reduceCtorEq, false_iff, not_not]
      tauto
  · intro hascii
    rw [ChunkType.try_from, if_neg]
    simp only [bytes4IsAscii, isAsciiByte, Bool.and_eq_true, decide_eq_true_eq, not_not]
    tauto

/-- C8 witness: the ASCII array `RuSt` is accepted unchanged. -/
theorem chunkType_new_try_from_spec_witness :
    ChunkType.try_from (82, 117, 83, 116) = .ok (ChunkType.new (82, 117, 83, 116)) :=
  (chunkType_new_try_from_spec (82, 117, 83, 116)).2.2 (by decide)

/-! ## Claims about Chunk construction and serialization -/

lemma chunk_new_length_eq (t : ChunkType) (d : List Nat) :
    (Chunk.new t d).length = d.length % 2 ^ 32 := rfl

/-- C3 counterexample: `Chunk::new` stores `data.len() as u32`, a wrapping
cast, so for data of length `2 ^ 32` the stored length is `0`, not the
data length. -/
theorem chunk_new_length_cex :
    (Chunk.new (ChunkType.new (82, 117, 83, 116)) (List.replicate (2 ^ 32) 0)).length ≠
      (List.replicate (2 ^ 32) 0).length := by
  rw [chunk_new_length_eq, List.length_replicate]
  norm_num

/-- C3 (amended): `Chunk::new` never fails, stores `d.len() mod 2^32` as
length (equal to `d.len()` whenever `d.len() < 2^32`), stores the data
unchanged, and stores as crc the CRC-32/ISO-HDLC checksum of
`t.bytes() ++ d`, a deterministic pure function of `t.bytes() ++ d`. -/
theorem chunk_new_spec (t : ChunkType) (d : List Nat) :
    (Chunk.new t d).length = d.length % 2 ^ 32 ∧
    (Chunk.new t d).chunk_type = t ∧
    (Chunk.new t d).data = d ∧
    (Chunk.new t d).crc = checksum (bytes4ToList t.bytes ++ d) ∧
    (d.length < 2 ^ 32 → (Chunk.new t d).length = d.length) ∧
    (∀ t' d', bytes4ToList t.bytes ++ d = bytes4ToList t'.bytes ++ d' →
      (Chunk.new t d).crc = (Chunk.new t' d').crc) := by
  refine ⟨rfl, rfl, rfl, rfl, fun h => ?_, fun t' d' h => ?_⟩
  · simp only [Chunk.new]
    omega
  · simp only [Chunk.new, h]

/-- C3 witness: the amended statement evaluated on a small chunk. -/
theorem chunk_new_spec_witness :
    (Chunk.new (ChunkType.new (82, 117, 83, 116)) [104, 105]).length = 2 :=
  (chunk_new_spec (ChunkType.new (82, 117, 83, 116)) [104, 105]).2.2.2.2.1 (by decide)

/-- C4: `as_bytes` is exactly big-endian length ++ type bytes ++ data ++
big-endian crc, and (under the data-model invariant that `data` holds
exactly `length` bytes) its total length is `12 + length`. -/
theorem chunk_as_bytes_spec (c : Chunk) (h : c.data.length = c.length) :
    c.as_bytes =
      u32ToBeBytes c.length ++ bytes4ToList c.chunk_type.bytes ++ c.data ++
        u32ToBeBytes c.crc ∧
    c.as_bytes.length = 12 + c.length := by
  refine ⟨rfl, ?_⟩
  simp only [Chunk.as_bytes, List.length_append, u32ToBeBytes_length]
  simp only [bytes4ToList, List.length_cons, List.length_nil]
  omega

/-- C4 witness: a 3-byte chunk serializes to 15 bytes. -/
theorem chunk_as_bytes_spec_witness :
    (Chunk.new (ChunkType.new (82, 117, 83, 116)) [1, 2, 3]).as_bytes.length =
      12 + (Chunk.new (ChunkType.new (82, 117, 83, 116)) [1, 2, 3]).length :=
  (chunk_as_bytes_spec _ (by decide)).2

/-- C6: `from_str` fails with `InvalidASCII` on non-ASCII input, with
`InvalidLength` on ASCII input that is not exactly 4 characters, with
`InvalidChar` when the character at index 2 is a decimal digit, and on
every other 4-character ASCII string returns the `ChunkType` holding the
string's 4 bytes. -/
theorem chunkType_from_str_spec (s : List Char) :
    (¬ (∀ c ∈ s, c.toNat ≤ 127) → ChunkType.from_str s = .error .invalidASCII) ∧
    ((∀ c ∈ s, c.toNat ≤ 127) → s.length ≠ 4 →
      ChunkType.from_str s = .error .invalidLength) ∧
    ((∀ c ∈ s, c.toNat ≤ 127) → s.length = 4 →
      (48 ≤ (s.getD 2 'A').toNat ∧ (s.getD 2 'A').toNat ≤ 57) →
      ChunkType.from_str s = .error .invalidChar) ∧
    ((∀ c ∈ s, c.toNat ≤ 127) → s.length = 4 →
      ¬ (48 ≤ (s.getD 2 'A').toNat ∧ (s.getD 2 'A').toNat ≤ 57) →
      ChunkType.from_str s = .ok (ChunkType.new
        ((s.getD 0 'A').toNat, (s.getD 1 'A').toNat, (s.getD 2 'A').toNat,
          (s.getD 3 'A').toNat))) := by
  refine ⟨?_, ?_, ?_, ?_⟩
  · intro h
    have hC : ¬ (s.all (fun c => c.toNat ≤ 127) = true) := by
      simpa [List.all_eq_true] using h
    rw [ChunkType.from_str, if_pos hC]
  · intro ha hlen
    have hall : s.all (fun c => c.toNat ≤ 127) = true := by
      simpa [List.all_eq_true] using ha
    rw [ChunkType.from_str, if_neg (not_not_intro hall), if_pos hlen]
  · intro ha hlen hdig
    have hall : s.all (fun c => c.toNat ≤ 127) = true := by
      simpa [List.all_eq_true] using ha
    have hd : isAsciiDigit (s.getD 2 'A').toNat = true := by
      simp only [isAsciiDigit, Bool.and_eq_true, decide_eq_true_eq]
      exact hdig
    rw [ChunkType.from_str, if_neg (not_not_intro hall),
      if_neg (not_not_intro hlen), if_pos hd]
  · intro ha hlen hnd
    have hall : s.all (fun c => c.toNat ≤ 127) = true := by
      simpa [List.all_eq_true] using ha
    have hd : ¬ (isAsciiDigit (s.getD 2 'A').toNat = true) := by
      simp only [isAsciiDigit, Bool.and_eq_true, decide_eq_true_eq]
      exact hnd
    rw [ChunkType.from_str, if_neg (not_not_intro hall),
      if_neg (not_not_intro hlen), if_neg hd]

/-- C6 witness: the spec scenario `Ru1t` (digit at index 2) fails with
the reserved-char error, and `RuSt` is accepted with its 4 bytes. -/
theorem chunkType_from_str_spec_witness :
    ChunkType.from_str ['R', 'u', '1', 't'] = .error .invalidChar ∧
    ChunkType.from_str ['R', 'u', 'S', 't'] = .ok (ChunkType.new (82, 117, 83, 116)) :=
  ⟨(chunkType_from_str_spec ['R', 'u', '1', 't']).2.2.1 (by decide) (by decide) (by decide),
    (chunkType_from_str_spec ['R', 'u', 'S', 't']).2.2.2 (by decide) (by decide) (by decide)⟩

lemma utf8Decode_nil : utf8Decode [] = some [] := by
  unfold utf8Decode
  rfl

lemma utf8Decode_ascii_cons (b : Nat) (rest : List Nat) (h : b < 0x80) :
    utf8Decode (b :: rest) = (utf8Decode rest).map (Char.ofNat b :: ·) := by
  conv_lhs => unfold utf8Decode
  rw [if_pos h]

/-- C9: for every `ChunkType` whose 4 bytes are ASCII, the `Display`
rendering succeeds (the `from_utf8` unwrap branch is unreachable) and
yields exactly the 4 bytes as a 4-character string. -/
theorem chunkType_display_spec (ct : ChunkType)
    (h : ct.chunk_type.1 ≤ 127 ∧ ct.chunk_type.2.1 ≤ 127 ∧
      ct.chunk_type.2.2.1 ≤ 127 ∧ ct.chunk_type.2.2.2 ≤ 127) :
    ct.displayString = some [Char.ofNat ct.chunk_type.1, Char.ofNat ct.chunk_type.2.1,
      Char.ofNat ct.chunk_type.2.2.1, Char.ofNat ct.chunk_type.2.2.2] := by
  obtain ⟨⟨b0, b1, b2, b3⟩⟩ := ct
  have g0 : b0 < 0x80 := Nat.lt_succ_of_le h.1
  have g1 : b1 < 0x80 := Nat.lt_succ_of_le h.2.1
  have g2 : b2 < 0x80 := Nat.lt_succ_of_le h.2.2.1
  have g3 : b3 < 0x80 := Nat.lt_succ_of_le h.2.2.2
  show utf8Decode [b0, b1, b2, b3] =
    some [Char.ofNat b0, Char.ofNat b1, Char.ofNat b2, Char.ofNat b3]
  rw [utf8Decode_ascii_cons _ _ g0, utf8Decode_ascii_cons _ _ g1,
    utf8Decode_ascii_cons _ _ g2, utf8Decode_ascii_cons _ _ g3, utf8Decode_nil]
  rfl

/-- C9 witness: the type `RuSt` renders as the string `RuSt`. -/
theorem chunkType_display_spec_witness :
    (ChunkType.new (82, 117, 83, 116)).displayString = some ['R', 'u', 'S', 't'] :=
  chunkType_display_spec (ChunkType.new (82, 117, 83, 116)) (by decide)

/-! ## Evaluating the chunk parser on framed buffers -/

lemma chunkType_bytes_new (b : Bytes4) : (ChunkType.new b).bytes = b := rfl

/-- `Chunk::try_from` on a buffer already split into its framing parts:
the parse reduces to the crc comparison. -/
lemma try_from_eval (l4 t4 d cb trail : List Nat)
    (hl4 : l4.length = 4) (ht4 : t4.length = 4) (hcb : cb.length = 4)
    (hd : u32FromBeBytes l4 = d.length) :
    Chunk.try_from (l4 ++ (t4 ++ (d ++ (cb ++ trail)))) =
      if u32FromBeBytes cb ≠ checksum (t4 ++ d) then .error .invalidCRC
      else .ok
        { length := d.length
          chunk_type := ChunkType.new (t4.getD 0 0, t4.getD 1 0, t4.getD 2 0, t4.getD 3 0)
          data := d
          crc := u32FromBeBytes cb } := by
  have h1 : ¬ ((l4 ++ (t4 ++ (d ++ (cb ++ trail)))).length < 4) := by
    simp only [List.length_append, hl4, ht4, hcb]
    omega
  have h2 : ¬ ((t4 ++ (d ++ (cb ++ trail))).length < 4) := by
    simp only [List.length_append, ht4, hcb]
    omega
  have h3 : ¬ ((d ++ (cb ++ trail)).length < d.length) := by
    simp only [List.length_append, hcb]
    omega
  have h4 : ¬ ((cb ++ trail).length < 4) := by
    simp only [List.length_append, hcb]
    omega
  rw [Chunk.try_from]
  simp only [List.take_left' hl4, List.drop_left' hl4, List.take_left' ht4,
    List.drop_left' ht4, hd, List.take_left, List.drop_left, List.take_left' hcb]
  rw [if_neg h1, if_neg h2, if_neg h3, if_neg h4]
  rw [chunkType_bytes_new, bytes4ToList_getD t4 ht4]

/-- C1: parsing the serialization of any chunk built by `Chunk::new`
returns that chunk back (length, type bytes, data and crc all equal). -/
theorem chunk_roundtrip (t : ChunkType) (d : List Nat)
    (ht : ∀ b ∈ bytes4ToList t.bytes, b < 256) (hd : ∀ b ∈ d, b < 256)
    (hlen : d.length < 2 ^ 32) :
    Chunk.try_from (Chunk.new t d).as_bytes = .ok (Chunk.new t d) := by
  obtain ⟨⟨a, b, c, e⟩⟩ := t
  have ht' : ∀ x ∈ ([a, b, c, e] : List Nat), x < 256 := ht
  have hbytes : ∀ x ∈ [a, b, c, e] ++ d, x < 2 ^ 32 := by
    intro x hx
    rcases List.mem_append.1 hx with h | h
    · exact lt_trans (ht' x h) (by norm_num)
    · exact lt_trans (hd x h) (by norm_num)
  have hcrc_lt : checksum ([a, b, c, e] ++ d) < 2 ^ 32 := checksum_lt _ hbytes
  have hab : (Chunk.new ⟨(a, b, c, e)⟩ d).as_bytes =
      u32ToBeBytes (d.length % 2 ^ 32) ++ ([a, b, c, e] ++ (d ++
        (u32ToBeBytes (checksum ([a, b, c, e] ++ d)) ++ ([] : List Nat)))) := by
    simp [Chunk.as_bytes, Chunk.new, ChunkType.bytes, bytes4ToList]
  have hlen4 : u32FromBeBytes (u32ToBeBytes (d.length % 2 ^ 32)) = d.length := by
    rw [u32_roundtrip _ (by omega), Nat.mod_eq_of_lt hlen]
  rw [hab, try_from_eval (u32ToBeBytes (d.length % 2 ^ 32)) [a, b, c, e] d
    (u32ToBeBytes (checksum ([a, b, c, e] ++ d))) [] (u32ToBeBytes_length _) rfl
    (u32ToBeBytes_length _) hlen4]
  rw [u32_roundtrip _ hcrc_lt, if_neg (by simp)]
  simp [Chunk.new, ChunkType.new, ChunkType.bytes, bytes4ToList, Chunk.mk.injEq]
  omega

/-- C1 witness: the round trip evaluated on a small concrete chunk. -/
theorem chunk_roundtrip_witness :
    Chunk.try_from (Chunk.new (ChunkType.new (82, 117, 83, 116)) [1, 2]).as_bytes =
      .ok (Chunk.new (ChunkType.new (82, 117, 83, 116)) [1, 2]) :=
  chunk_roundtrip (ChunkType.new (82, 117, 83, 116)) [1, 2] (by decide) (by decide)
    (by decide)

/-- Every buffer splits into the parse's framing regions: 4 length bytes,
4 type bytes, `L` data bytes, 4 crc bytes, and the ignored tail. -/
lemma buffer_decomp (v : List Nat) (L : Nat) :
    v = v.take 4 ++ ((v.drop 4).take 4 ++ ((v.drop 8).take L ++
      ((v.drop (8 + L)).take 4 ++ v.drop (12 + L)))) := by
  have h1 : v.drop (8 + L) = (v.drop (8 + L)).take 4 ++ v.drop (12 + L) := by
    conv_lhs => rw [← List.take_append_drop 4 (v.drop (8 + L))]
    rw [List.drop_drop]
    have : 8 + L + 4 = 12 + L := by omega
    rw [this]
  have h2 : v.drop 8 = (v.drop 8).take L ++ v.drop (8 + L) := by
    conv_lhs => rw [← List.take_append_drop L (v.drop 8)]
    rw [List.drop_drop]
  have h3 : v.drop 4 = (v.drop 4).take 4 ++ v.drop 8 := by
    conv_lhs => rw [← List.take_append_drop 4 (v.drop 4)]
    rw [List.drop_drop]
  rw [← h1, ← h2, ← h3, List.take_append_drop]

lemma try_from_eof (v : List Nat) (h : v.length < 12 + u32FromBeBytes (v.take 4)) :
    Chunk.try_from v = .error .unexpectedEof := by
  simp only [Chunk.try_from]
  split_ifs with h1 h2 h3 h4 h5 <;> try rfl
  all_goals
    exfalso
    simp only [List.length_drop] at h2 h3 h4
    omega

lemma try_from_of_wellFramed (v : List Nat)
    (h : 12 + u32FromBeBytes (v.take 4) ≤ v.length) :
    Chunk.try_from v =
      if u32FromBeBytes ((v.drop (8 + u32FromBeBytes (v.take 4))).take 4) ≠
          checksum ((v.drop 4).take 4 ++ (v.drop 8).take (u32FromBeBytes (v.take 4)))
        then .error .invalidCRC
      else .ok
        { length := u32FromBeBytes (v.take 4)
          chunk_type := ChunkType.new (((v.drop 4).take 4).getD 0 0,
            ((v.drop 4).take 4).getD 1 0, ((v.drop 4).take 4).getD 2 0,
            ((v.drop 4).take 4).getD 3 0)
          data := (v.drop 8).take (u32FromBeBytes (v.take 4))
          crc := u32FromBeBytes ((v.drop (8 + u32FromBeBytes (v.take 4))).take 4) } := by
  set L := u32FromBeBytes (v.take 4) with hLdef
  have e1 : (v.take 4).length = 4 := by
    simp only [List.length_take]
    omega
  have e2 : ((v.drop 4).take 4).length = 4 := by
    simp only [List.length_take, List.length_drop]
    omega
  have e3 : ((v.drop (8 + L)).take 4).length = 4 := by
    simp only [List.length_take, List.length_drop]
    omega
  have e4 : ((v.drop 8).take L).length = L := by
    simp only [List.length_take, List.length_drop]
    omega
  have hd : u32FromBeBytes (v.take 4) = ((v.drop 8).take L).length := by rw [e4]
  conv_lhs => rw [buffer_decomp v L]
  rw [try_from_eval _ _ _ _ _ e1 e2 e3 hd]
  rw [e4]

/-- C2: `Chunk::try_from` fails with `UnexpectedEof` exactly when the
buffer holds fewer than the `12 + L` bytes required by the declared
big-endian length `L`, fails with `InvalidCRC` exactly when the buffer
is long enough but the recomputed CRC-32 over type ++ data disagrees
with the stored crc field, and succeeds otherwise — so the checksum
comparison is the only integrity check and these are the only failure
modes. -/
theorem try_from_failure_modes (v : List Nat) :
    (Chunk.try_from v = .error .unexpectedEof ↔ v.length < 12 + declaredLen v) ∧
    (Chunk.try_from v = .error .invalidCRC ↔
      12 + declaredLen v ≤ v.length ∧ storedCrc v ≠ computedCrc v) ∧
    ((∃ c, Chunk.try_from v = .ok c) ↔
      12 + declaredLen v ≤ v.length ∧ storedCrc v = computedCrc v) := by
  simp only [declaredLen, storedCrc, computedCrc]
  by_cases hf : 12 + u32FromBeBytes (v.take 4) ≤ v.length
  · have hwf := try_from_of_wellFramed v hf
    by_cases hcrc : u32FromBeBytes ((v.drop (8 + u32FromBeBytes (v.take 4))).take 4) =
      checksum ((v.drop 4).take 4 ++ (v.drop 8).take (u32FromBeBytes (v.take 4)))
    · rw [hwf, if_neg (not_not_intro hcrc)]
      refine ⟨?_, ?_, ?_⟩
      · simp only [reduceCtorEq, false_iff]
        omega
      · simp only [reduceCtorEq, false_iff]
        exact fun h => h.2 hcrc
      · exact ⟨fun _ => ⟨hf, hcrc⟩, fun _ => ⟨_, rfl⟩⟩
    · rw [hwf, if_pos hcrc]
      refine ⟨?_, ?_, ?_⟩
      · simp only [Except.error.injEq, reduceCtorEq, false_iff]
        omega
      · simp only [true_iff]
        exact ⟨hf, hcrc⟩
      · constructor
        · rintro ⟨c, hc⟩
          exact absurd hc (by simp)
        · exact fun h => absurd h.2 hcrc
  · rw [try_from_eof v (by omega)]
    refine ⟨?_, ?_, ?_⟩
    · exact ⟨fun _ => by omega, fun _ => rfl⟩
    · constructor
      · intro h
        exact absurd h (by simp)
      · exact fun h => absurd h.1 hf
    · constructor
      · rintro ⟨c, hc⟩
        exact absurd hc (by simp)
      · exact fun h => absurd h.1 hf

/-- C2 witness: the empty buffer fails with `UnexpectedEof`. -/
theorem try_from_failure_modes_witness :
    Chunk.try_from [] = .error .unexpectedEof :=
  (try_from_failure_modes []).1.mpr (by decide)

/-- C10: well-framed buffers whose stored crc matches the recomputed
checksum parse successfully, with no ASCII or validity check applied to
the 4 chunk-type bytes. -/
theorem try_from_no_type_validation (v : List Nat)
    (h1 : 12 + declaredLen v ≤ v.length) (h2 : storedCrc v = computedCrc v) :
    Chunk.try_from v = .ok
      { length := declaredLen v
        chunk_type := ChunkType.new (((v.drop 4).take 4).getD 0 0,
          ((v.drop 4).take 4).getD 1 0, ((v.drop 4).take 4).getD 2 0,
          ((v.drop 4).take 4).getD 3 0)
        data := (v.drop 8).take (declaredLen v)
        crc := storedCrc v } := by
  simp only [declaredLen, storedCrc, computedCrc] at h1 h2 ⊢
  rw [try_from_of_wellFramed v h1, if_neg (not_not_intro h2)]

/-- C10 witness: a buffer whose type bytes `(200, 1, 2, 3)` are not even
ASCII (so `is_valid` is false) still parses successfully because its crc
matches. -/
theorem try_from_no_type_validation_witness :
    Chunk.try_from ([0, 0, 0, 0, 200, 1, 2, 3] ++ u32ToBeBytes (checksum [200, 1, 2, 3])) =
      .ok
        { length := 0
          chunk_type := ChunkType.new (200, 1, 2, 3)
          data := []
          crc := checksum [200, 1, 2, 3] } ∧
    (ChunkType.new (200, 1, 2, 3)).is_valid = false := by
  constructor
  · exact try_from_no_type_validation
      ([0, 0, 0, 0, 200, 1, 2, 3] ++ u32ToBeBytes (checksum [200, 1, 2, 3]))
      (by decide) (by decide)
  · decide

/-! ## CRC distinguishes single-byte differences

The reflected CRC state update is injective on 32-bit states, so two
messages that agree everywhere except in one byte always have different
checksums. -/

lemma xor_right_cancel {a b p : Nat} (h : a ^^^ p = b ^^^ p) : a = b := by
  have h2 := congrArg (· ^^^ p) h
  simpa [Nat.xor_assoc] using h2

lemma xor_left_cancel {p a b : Nat} (h : p ^^^ a = p ^^^ b) : a = b := by
  have h2 := congrArg (p ^^^ ·) h
  simp only [← Nat.xor_assoc, Nat.xor_self, Nat.zero_xor] at h2
  exact h2

lemma xor_pow_ne (b k : Nat) : b ^^^ 2 ^ k ≠ b := by
  intro h
  have h2 : b ^^^ 2 ^ k = b ^^^ 0 := by simpa using h
  have h3 := xor_left_cancel h2
  have h4 := Nat.two_pow_pos k
  omega

lemma crcBitStep_inj (c1 c2 : Nat) (h1 : c1 < 2 ^ 32) (h2 : c2 < 2 ^ 32)
    (h : crcBitStep c1 = crcBitStep c2) : c1 = c2 := by
  have hP1 : Nat.testBit 0xEDB88320 31 = true := by decide
  unfold crcBitStep CRC32_POLY at h
  by_cases p1 : c1 % 2 = 1 <;> by_cases p2 : c2 % 2 = 1
  · rw [if_pos p1, if_pos p2] at h
    have h3 := xor_right_cancel h
    omega
  · rw [if_pos p1, if_neg p2] at h
    exfalso
    have ha : Nat.testBit (c1 / 2) 31 = false := Nat.testBit_lt_two_pow (by omega)
    have hb : Nat.testBit (c1 / 2 ^^^ 0xEDB88320) 31 = true := by
      rw [Nat.testBit_xor, ha, hP1]
      rfl
    have hge : 2 ^ 31 ≤ c1 / 2 ^^^ 0xEDB88320 := Nat.testBit_implies_ge hb
    rw [h] at hge
    omega
  · rw [if_neg p1, if_pos p2] at h
    exfalso
    have ha : Nat.testBit (c2 / 2) 31 = false := Nat.testBit_lt_two_pow (by omega)
    have hb : Nat.testBit (c2 / 2 ^^^ 0xEDB88320) 31 = true := by
      rw [Nat.testBit_xor, ha, hP1]
      rfl
    have hge : 2 ^ 31 ≤ c2 / 2 ^^^ 0xEDB88320 := Nat.testBit_implies_ge hb
    rw [← h] at hge
    omega
  · rw [if_neg p1, if_neg p2] at h
    omega

lemma crcBitStep_ne (c1 c2 : Nat) (h1 : c1 < 2 ^ 32) (h2 : c2 < 2 ^ 32)
    (hne : c1 ≠ c2) : crcBitStep c1 ≠ crcBitStep c2 :=
  fun h => hne (crcBitStep_inj c1 c2 h1 h2 h)

lemma crcBitStep_iter_lt (n x : Nat) (h : x < 2 ^ 32) : crcBitStep^[n] x < 2 ^ 32 := by
  induction n generalizing x with
  | zero => simpa using h
  | succ k ih =>
    rw [Function.iterate_succ_apply]
    exact ih _ (crcBitStep_lt _ h)

lemma crcBitStep_iter_ne (n x y : Nat) (hx : x < 2 ^ 32) (hy : y < 2 ^ 32)
    (hne : x ≠ y) : crcBitStep^[n] x ≠ crcBitStep^[n] y := by
  induction n generalizing x y with
  | zero => simpa using hne
  | succ k ih =>
    rw [Function.iterate_succ_apply, Function.iterate_succ_apply]
    exact ih _ _ (crcBitStep_lt _ hx) (crcBitStep_lt _ hy) (crcBitStep_ne _ _ hx hy hne)

lemma crcByteStep_eq_iter (c b : Nat) : crcByteStep c b = crcBitStep^[8] (c ^^^ b) := rfl

lemma crcByteStep_ne (c1 c2 b1 b2 : Nat) (hc1 : c1 < 2 ^ 32) (hc2 : c2 < 2 ^ 32)
    (hb1 : b1 < 2 ^ 32) (hb2 : b2 < 2 ^ 32) (hne : c1 ^^^ b1 ≠ c2 ^^^ b2) :
    crcByteStep c1 b1 ≠ crcByteStep c2 b2 := by
  rw [crcByteStep_eq_iter, crcByteStep_eq_iter]
  exact crcBitStep_iter_ne 8 _ _ (Nat.xor_lt_two_pow hc1 hb1)
    (Nat.xor_lt_two_pow hc2 hb2) hne

lemma foldl_crc_ne (s : List Nat) : ∀ c1 c2, c1 < 2 ^ 32 → c2 < 2 ^ 32 →
    (∀ b ∈ s, b < 2 ^ 32) → c1 ≠ c2 →
    s.foldl crcByteStep c1 ≠ s.foldl crcByteStep c2 := by
  induction s with
  | nil =>
    intro c1 c2 _ _ _ hne
    simpa using hne
  | cons b t ih =>
    intro c1 c2 h1 h2 hs hne
    simp only [List.foldl_cons]
    refine ih _ _ (crcByteStep_lt _ _ h1 (hs b (by simp)))
      (crcByteStep_lt _ _ h2 (hs b (by simp))) (fun x hx => hs x (by simp [hx]))
      (crcByteStep_ne _ _ _ _ h1 h2 (hs b (by simp)) (hs b (by simp)) ?_)
    exact fun hh => hne (xor_right_cancel hh)

lemma getD_append_ge (a b : List Nat) (j n : Nat) (h : a.length = n) (hj : n ≤ j) :
    (a ++ b).getD j 0 = b.getD (j - n) 0 := by
  subst h
  simp [List.getD_eq_getElem?_getD, List.getElem?_append_right hj]

lemma getD_append_lt (a b : List Nat) (j : Nat) (hj : j < a.length) :
    (a ++ b).getD j 0 = a.getD j 0 := by
  simp [List.getD_eq_getElem?_getD, List.getElem?_append_left hj]

/-- Two equal-length messages that differ in exactly one byte have
different CRC-32 checksums. -/
lemma checksum_single_diff (p s : List Nat) (b1 b2 : Nat)
    (hp : ∀ x ∈ p, x < 2 ^ 32) (hs : ∀ x ∈ s, x < 2 ^ 32)
    (hb1 : b1 < 2 ^ 32) (hb2 : b2 < 2 ^ 32) (hne : b1 ≠ b2) :
    checksum (p ++ b1 :: s) ≠ checksum (p ++ b2 :: s) := by
  unfold checksum
  intro h
  have h2 := xor_right_cancel h
  simp only [List.foldl_append, List.foldl_cons] at h2
  have hcl : p.foldl crcByteStep 0xFFFFFFFF < 2 ^ 32 :=
    foldl_crc_lt p _ (by norm_num) hp
  exact foldl_crc_ne s _ _ (crcByteStep_lt _ _ hcl hb1) (crcByteStep_lt _ _ hcl hb2)
    hs (crcByteStep_ne _ _ _ _ hcl hcl hb1 hb2
      (fun hh => hne (xor_left_cancel hh))) h2

/-- Inverting a successful parse: the buffer is well framed and each
field of the returned chunk is the corresponding region of the buffer,
with the stored crc equal to the recomputed checksum. -/
lemma try_from_ok_inv (v : List Nat) (c : Chunk) (h : Chunk.try_from v = .ok c) :
    12 + u32FromBeBytes (v.take 4) ≤ v.length ∧
    c.length = u32FromBeBytes (v.take 4) ∧
    c.data = (v.drop 8).take (u32FromBeBytes (v.take 4)) ∧
    c.crc = u32FromBeBytes ((v.drop (8 + u32FromBeBytes (v.take 4))).take 4) ∧
    c.crc = checksum ((v.drop 4).take 4 ++ (v.drop 8).take (u32FromBeBytes (v.take 4))) := by
  by_cases hf : 12 + u32FromBeBytes (v.take 4) ≤ v.length
  · by_cases hcrc : u32FromBeBytes ((v.drop (8 + u32FromBeBytes (v.take 4))).take 4) =
        checksum ((v.drop 4).take 4 ++ (v.drop 8).take (u32FromBeBytes (v.take 4)))
    · rw [try_from_of_wellFramed v hf, if_neg (not_not_intro hcrc)] at h
      rw [Except.ok.injEq] at h
      subst h
      exact ⟨hf, rfl, rfl, rfl, hcrc⟩
    · rw [try_from_of_wellFramed v hf, if_pos hcrc] at h
      exact absurd h (by simp)
  · rw [try_from_eof v (by omega)] at h
    exact absurd h (by simp)

/-- Flipping one bit of one byte of a 4-byte big-endian word changes its
value. -/
lemma u32FromBeBytes_flip_ne (x0 x1 x2 x3 k r : Nat) (hr : r < 4) (hk : k < 8)
    (h0 : x0 < 256) (h1 : x1 < 256) (h2 : x2 < 256) (h3 : x3 < 256) :
    u32FromBeBytes ([x0, x1, x2, x3].set r ([x0, x1, x2, x3].getD r 0 ^^^ 2 ^ k)) ≠
      u32FromBeBytes [x0, x1, x2, x3] := by
  have h2k : (2 : Nat) ^ k < 256 := by
    calc (2 : Nat) ^ k < 2 ^ 8 := Nat.pow_lt_pow_right (by norm_num) hk
    _ = 256 := by norm_num
  have hy0 := xor_pow_ne x0 k
  have hy1 := xor_pow_ne x1 k
  have hy2 := xor_pow_ne x2 k
  have hy3 := xor_pow_ne x3 k
  have hl0 : x0 ^^^ 2 ^ k < 2 ^ 8 := Nat.xor_lt_two_pow (by omega) (by omega)
  have hl1 : x1 ^^^ 2 ^ k < 2 ^ 8 := Nat.xor_lt_two_pow (by omega) (by omega)
  have hl2 : x2 ^^^ 2 ^ k < 2 ^ 8 := Nat.xor_lt_two_pow (by omega) (by omega)
  have hl3 : x3 ^^^ 2 ^ k < 2 ^ 8 := Nat.xor_lt_two_pow (by omega) (by omega)
  interval_cases r <;>
  · simp only [List.set, List.getD_cons_zero, List.getD_cons_succ, u32FromBeBytes]
    omega

/-- Core of the bit-flip claim, on a buffer split into framing regions:
flipping bit `k` of the byte at offset `j` in the data region or the crc
region of an accepted buffer makes the parse fail with `InvalidCRC`. -/
lemma bitflip_core (l4 t4 d cb tr : List Nat) (j k : Nat)
    (el4 : l4.length = 4) (et4 : t4.length = 4) (ecb : cb.length = 4)
    (hdlen : u32FromBeBytes l4 = d.length)
    (hmatch : u32FromBeBytes cb = checksum (t4 ++ d))
    (hbt4 : ∀ x ∈ t4, x < 256) (hbd : ∀ x ∈ d, x < 256) (hbcb : ∀ x ∈ cb, x < 256)
    (hk : k < 8) (hj1 : 8 ≤ j) (hj2 : j < 12 + d.length) :
    Chunk.try_from ((l4 ++ (t4 ++ (d ++ (cb ++ tr)))).set j
      ((l4 ++ (t4 ++ (d ++ (cb ++ tr)))).getD j 0 ^^^ 2 ^ k)) = .error .invalidCRC := by
  have h2k8 : (2 : Nat) ^ k < 256 := by
    calc (2 : Nat) ^ k < 2 ^ 8 := Nat.pow_lt_pow_right (by norm_num) hk
    _ = 256 := by norm_num
  have e44 : j - 4 - 4 = j - 8 := by omega
  by_cases hreg : j - 8 < d.length
  · -- a bit of the data region
    have hget : (l4 ++ (t4 ++ (d ++ (cb ++ tr)))).getD j 0 = d.getD (j - 8) 0 := by
      rw [getD_append_ge _ _ _ _ el4 (by omega), getD_append_ge _ _ _ _ et4 (by omega),
        e44, getD_append_lt _ _ _ hreg]
    have hb0elem : d.getD (j - 8) 0 = d.get ⟨j - 8, hreg⟩ := by
      simp [List.getD_eq_getElem?_getD, List.getElem?_eq_getElem hreg]
    have hsets : (l4 ++ (t4 ++ (d ++ (cb ++ tr)))).set j (d.getD (j - 8) 0 ^^^ 2 ^ k) =
        l4 ++ (t4 ++ (d.set (j - 8) (d.getD (j - 8) 0 ^^^ 2 ^ k) ++ (cb ++ tr))) := by
      rw [List.set_append_right _ _ (by omega), List.set_append_right _ _ (by omega),
        el4, et4, e44, List.set_append_left _ _ hreg]
    rw [hget, hsets]
    have hsetlen : (d.set (j - 8) (d.getD (j - 8) 0 ^^^ 2 ^ k)).length = d.length :=
      List.length_set d _ _
    rw [try_from_eval _ _ _ _ _ el4 et4 ecb (by rw [hsetlen]; exact hdlen)]
    have hd_split : d = d.take (j - 8) ++ d.getD (j - 8) 0 :: d.drop (j - 8 + 1) := by
      conv_lhs => rw [← List.take_append_drop (j - 8) d]
      congr 1
      rw [hb0elem]
      exact (List.getElem_cons_drop d (j - 8) hreg).symm
    have hset_split : d.set (j - 8) (d.getD (j - 8) 0 ^^^ 2 ^ k) =
        d.take (j - 8) ++ (d.getD (j - 8) 0 ^^^ 2 ^ k) :: d.drop (j - 8 + 1) :=
      List.set_eq_take_cons_drop _ hreg
    have hb0lt : d.getD (j - 8) 0 < 256 := by
      rw [hb0elem]
      exact hbd _ (d.get_mem _ _)
    have hcks : checksum (t4 ++ d) ≠
        checksum (t4 ++ d.set (j - 8) (d.getD (j - 8) 0 ^^^ 2 ^ k)) := by
      conv_lhs => rw [hd_split]
      rw [hset_split, ← List.append_assoc, ← List.append_assoc]
      refine checksum_single_diff (t4 ++ d.take (j - 8)) (d.drop (j - 8 + 1)) _ _
        ?_ ?_ ?_ ?_ ?_
      · intro x hx
        rcases List.mem_append.1 hx with h | h
        · exact lt_trans (hbt4 x h) (by norm_num)
        · exact lt_trans (hbd x (List.take_subset _ _ h)) (by norm_num)
      · exact fun x hx => lt_trans (hbd x (List.drop_subset _ _ hx)) (by norm_num)
      · exact lt_trans hb0lt (by norm_num)
      · exact Nat.xor_lt_two_pow (lt_trans hb0lt (by norm_num))
          (lt_trans h2k8 (by norm_num))
      · exact (xor_pow_ne _ k).symm
    rw [if_pos (by rw [hmatch]; exact hcks)]
  · -- a bit of the crc region
    have hr2 : j - 8 - d.length < 4 := by omega
    have hget : (l4 ++ (t4 ++ (d ++ (cb ++ tr)))).getD j 0 =
        cb.getD (j - 8 - d.length) 0 := by
      rw [getD_append_ge _ _ _ _ el4 (by omega), getD_append_ge _ _ _ _ et4 (by omega),
        e44, getD_append_ge _ _ _ _ rfl (by omega), getD_append_lt _ _ _ (by omega)]
    have hsets : (l4 ++ (t4 ++ (d ++ (cb ++ tr)))).set j
        (cb.getD (j - 8 - d.length) 0 ^^^ 2 ^ k) =
        l4 ++ (t4 ++ (d ++ (cb.set (j - 8 - d.length)
          (cb.getD (j - 8 - d.length) 0 ^^^ 2 ^ k) ++ tr))) := by
      rw [List.set_append_right _ _ (by omega), List.set_append_right _ _ (by omega),
        el4, et4, e44, List.set_append_right _ _ (by omega),
        List.set_append_left _ _ (by omega)]
    rw [hget, hsets]
    rw [try_from_eval _ _ _ _ _ el4 et4 (by rw [List.length_set]; exact ecb) hdlen]
    have hune : u32FromBeBytes (cb.set (j - 8 - d.length)
        (cb.getD (j - 8 - d.length) 0 ^^^ 2 ^ k)) ≠ u32FromBeBytes cb := by
      obtain ⟨x0, x1, x2, x3, hcb4⟩ := list_len4_cases cb ecb
      subst hcb4
      exact u32FromBeBytes_flip_ne x0 x1 x2 x3 k (j - 8 - d.length) hr2 hk
        (hbcb x0 (by simp)) (hbcb x1 (by simp)) (hbcb x2 (by simp)) (hbcb x3 (by simp))
    rw [if_pos (by rw [← hmatch]; exact hune)]

/-- C7: for every byte buffer accepted by `Chunk::try_from`, flipping any
single bit of any byte in the data region (offsets `8 ..< 8 + L`) or the
crc region (offsets `8 + L ..< 12 + L`) yields a buffer on which
`Chunk::try_from` fails with `InvalidCRC`. -/
theorem chunk_bitflip_detected (v : List Nat) (c : Chunk)
    (hok : Chunk.try_from v = .ok c) (hb : ∀ b ∈ v, b < 256)
    (j k : Nat) (hk : k < 8) (hj1 : 8 ≤ j) (hj2 : j < 12 + c.length) :
    Chunk.try_from (v.set j (v.getD j 0 ^^^ 2 ^ k)) = .error .invalidCRC := by
  obtain ⟨hfr, hlen, hdata, hcrcst, hcrceq⟩ := try_from_ok_inv v c hok
  have hv := buffer_decomp v (u32FromBeBytes (v.take 4))
  have el4 : (v.take 4).length = 4 := by
    simp only [List.length_take]
    omega
  have et4 : ((v.drop 4).take 4).length = 4 := by
    simp only [List.length_take, List.length_drop]
    omega
  have ed : ((v.drop 8).take (u32FromBeBytes (v.take 4))).length =
      u32FromBeBytes (v.take 4) := by
    simp only [List.length_take, List.length_drop]
    omega
  have ecb : ((v.drop (8 + u32FromBeBytes (v.take 4))).take 4).length = 4 := by
    simp only [List.length_take, List.length_drop]
    omega
  have hmatch : u32FromBeBytes ((v.drop (8 + u32FromBeBytes (v.take 4))).take 4) =
      checksum ((v.drop 4).take 4 ++ (v.drop 8).take (u32FromBeBytes (v.take 4))) := by
    rw [← hcrcst, hcrceq]
  have hbsub : ∀ (n m : Nat), ∀ x ∈ (v.drop n).take m, x < 256 :=
    fun n m x hx => hb x (List.drop_subset _ _ (List.take_subset _ _ hx))
  conv_lhs => rw [hv]
  exact bitflip_core _ _ _ _ _ j k el4 et4 ecb (by rw [ed]) hmatch
    (hbsub 4 4) (hbsub 8 _) (hbsub _ 4) hk hj1
    (by rw [ed]; rw [hlen] at hj2; omega)

/-- C7 witness: flipping the lowest bit of the single data byte of a
small accepted chunk buffer makes parsing fail with `InvalidCRC`. -/
theorem chunk_bitflip_detected_witness :
    Chunk.try_from ((Chunk.new (ChunkType.new (82, 117, 83, 116)) [5]).as_bytes.set 8
      ((Chunk.new (ChunkType.new (82, 117, 83, 116)) [5]).as_bytes.getD 8 0 ^^^ 2 ^ 0)) =
      .error .invalidCRC :=
  chunk_bitflip_detected (Chunk.new (ChunkType.new (82, 117, 83, 116)) [5]).as_bytes
    (Chunk.new (ChunkType.new (82, 117, 83, 116)) [5]) (by rfl) (by decide) 8 0
    (by decide) (by decide) (by decide)

end Sspngme
